import Mathlib

/-!
Verification of the Conway Game of Life implementation in `gol.py`.

The Python program keeps the grid as a dictionary mapping integer
coordinate pairs to booleans.  We embed such a dictionary as a pair of
finite sets: `keys`, the set of keys present in the dictionary, and
`live`, the set of keys whose stored value is `True` (so a real
dictionary always satisfies `live ⊆ keys`; theorems state this
hypothesis where they need it).  Dictionary assignment `cells[c] = True`
inserts `c` into both sets; `cells[c] = False` inserts `c` into `keys`
and removes it from `live`; reading `cells[c]` fails (Python `KeyError`)
when `c ∉ keys`.
-/

set_option maxRecDepth 40000

namespace Gol

/-- Coordinates of a cell, as in the source: a pair of Python ints. -/
abbrev Cell := Int × Int

/-- Embedding of the Python dict of cells: the key set together with the
set of keys whose value is `True`. -/
structure Grid where
  keys : Finset Cell
  live : Finset Cell

/-- Source constant `WINDOW_WIDTH = 1020`. -/
def WINDOW_WIDTH : Nat := 1020

/-- Source constant `WINDOW_HEIGHT = 560`. -/
def WINDOW_HEIGHT : Nat := 560

/-- Source constant `CELL_SIZE = 10`. -/
def CELL_SIZE : Nat := 10

/-- Source: `CELL_WIDTH = int(WINDOW_WIDTH / CELL_SIZE)`. -/
def CELL_WIDTH : Nat := WINDOW_WIDTH / CELL_SIZE

/-- Source: `CELL_HEIGHT = int(WINDOW_HEIGHT / CELL_SIZE)`. -/
def CELL_HEIGHT : Nat := WINDOW_HEIGHT / CELL_SIZE

/-- Source `is_in_display_surface(cell)`:
`all([x >= 0, x < CELL_WIDTH, y >= 0, y < CELL_HEIGHT])`. -/
def is_in_display_surface (c : Cell) : Bool :=
  decide (0 ≤ c.1) && decide (c.1 < (CELL_WIDTH : Int)) &&
  decide (0 ≤ c.2) && decide (c.2 < (CELL_HEIGHT : Int))

/-- The display surface `[0, CELL_WIDTH) × [0, CELL_HEIGHT)` as a finite
set of cells; this is the key set produced by `initialise_empty_cells`. -/
def surface : Finset Cell :=
  Finset.Icc (0 : Int) ((CELL_WIDTH : Int) - 1) ×ˢ
    Finset.Icc (0 : Int) ((CELL_HEIGHT : Int) - 1)

/-- Source `initialise_empty_cells()`: every in-surface cell is a key
with value `False`. -/
def initialise_empty_cells : Grid :=
  { keys := surface, live := ∅ }

/-- Dictionary assignment `cells[c] = True`: the key is added (if not
already present) and its value becomes `True`. -/
def gridSetTrue (g : Grid) (c : Cell) : Grid :=
  { keys := insert c g.keys, live := insert c g.live }

/-- Source `life_load(centre_cell, filename)` with the pattern entries
already parsed: starting from `initialise_empty_cells()`, each entry
`(x, y)` sets `cells[(cx + x, cy + y)] = True`. -/
def life_load (centre : Cell) (entries : List Cell) : Grid :=
  entries.foldl
    (fun cells e => gridSetTrue cells (centre.1 + e.1, centre.2 + e.2))
    initialise_empty_cells

/-- Source toggle in `initialise_grid`:
`cells[this_cell] = not cells[this_cell]`.  Reading `cells[this_cell]`
raises `KeyError` when the cell is not a key, modelled as `none`;
otherwise the boolean at that key is flipped. -/
def toggle (g : Grid) (c : Cell) : Option Grid :=
  if c ∈ g.keys then
    some { keys := g.keys,
           live := if c ∈ g.live then g.live.erase c else insert c g.live }
  else none

/-- Source `cell_neighbours((x, y))`: the eight Moore neighbours in
source order. -/
def cell_neighbours (c : Cell) : List Cell :=
  [(c.1 - 1, c.2 - 1), (c.1, c.2 - 1), (c.1 + 1, c.2 - 1),
   (c.1 - 1, c.2), (c.1 + 1, c.2),
   (c.1 - 1, c.2 + 1), (c.1, c.2 + 1), (c.1 + 1, c.2 + 1)]

/-- Neighbour count accumulated for a live cell in `live_or_die`: the
number of its `cell_neighbours` that are in `livecells`. -/
def liveNeighbourCount (livecells : Finset Cell) (c : Cell) : Nat :=
  ((cell_neighbours c).filter (fun n => decide (n ∈ livecells))).length

/-- Count accumulated in `deadcell_candidates` for a dead cell `d`: one
increment for every live cell having `d` among its neighbours. -/
def candCount (livecells : Finset Cell) (d : Cell) : Nat :=
  (livecells.filter (fun l => d ∈ cell_neighbours l)).card

/-- Key set of the `deadcell_candidates` dictionary: dead neighbours of
live cells. -/
def deadcellCandidates (livecells : Finset Cell) : Finset Cell :=
  livecells.biUnion
    (fun l => ((cell_neighbours l).filter (fun n => decide (n ∉ livecells))).toFinset)

/-- Cells brought to life by rule 4 in `live_or_die`: dead candidates
with neighbour count exactly 3 that lie in the display surface. -/
def births (g : Grid) : Finset Cell :=
  (deadcellCandidates g.live).filter
    (fun d => candCount g.live d = 3 ∧ is_in_display_surface d = true)

/-- Cells killed by rules 1 and 3 in `live_or_die`: live cells whose
neighbour count is below 2 or above 3. -/
def killed (g : Grid) : Finset Cell :=
  g.live.filter
    (fun c => liveNeighbourCount g.live c < 2 ∨ 3 < liveNeighbourCount g.live c)

/-- Source `live_or_die(cells)`: the next generation starts as a copy of
`cells`; killed cells are assigned `False` (their keys are already
present when `live ⊆ keys`, but dictionary assignment would insert
them), surviving live cells keep their copied `True`, and birth cells
are assigned `True`. -/
def live_or_die (g : Grid) : Grid :=
  { keys := (g.keys ∪ killed g) ∪ births g,
    live := (g.live.filter
        (fun c => 2 ≤ liveNeighbourCount g.live c ∧ liveNeighbourCount g.live c ≤ 3))
      ∪ births g }

/-- A Grid representing a dictionary produced by the initialisation
operations: every in-surface cell is a key and the stored booleans live
on the keys. -/
def wellFormed (g : Grid) : Prop :=
  g.keys = surface ∧ g.live ⊆ g.keys

/-- Spec-side Moore neighbourhood of a cell: the eight cells at relative
offsets (±1,0), (0,±1), (±1,±1). -/
def mooreNeighbourhood (c : Cell) : Finset Cell :=
  {(c.1 + 1, c.2), (c.1 - 1, c.2), (c.1, c.2 + 1), (c.1, c.2 - 1),
   (c.1 + 1, c.2 + 1), (c.1 + 1, c.2 - 1), (c.1 - 1, c.2 + 1), (c.1 - 1, c.2 - 1)}

/-- Spec-side Moore-neighbourhood live count of a cell. -/
def naiveCount (livecells : Finset Cell) (c : Cell) : Nat :=
  (mooreNeighbourhood c ∩ livecells).card

/-- Spec-side next generation by a naive full-grid Conway scan over the
surface: a cell of the surface is alive next iff it is alive with Moore
count 2 or 3, or dead with Moore count exactly 3. -/
def naive_next_live (g : Grid) : Finset Cell :=
  surface.filter (fun c =>
    if c ∈ g.live then naiveCount g.live c = 2 ∨ naiveCount g.live c = 3
    else naiveCount g.live c = 3)

/-- The blinker configuration of the spec: a horizontal 3-cell line on
the (well-formed) surface grid. -/
def blinkerGrid : Grid :=
  { keys := surface,
    live := insert ((4 : Int), (5 : Int))
      (insert ((5 : Int), (5 : Int)) {((6 : Int), (5 : Int))}) }

/-- Inner `while True` loop of `gen_cell_random`: consume draws from the
random stream until one is found that is not in the uniqueness set `s`;
return it with the remaining stream, or `none` if the modelled finite
stream runs out. -/
def findFresh : List Cell → Finset Cell → Option (Cell × List Cell)
  | [], _ => none
  | d :: rest, s => if d ∈ s then findFresh rest s else some (d, rest)

/-- Outer `for _ in range(n)` loop of `gen_cell_random`: collect `n`
pairwise-distinct cells from the draw stream, maintaining the
uniqueness set `s`. -/
def genAux (s : Finset Cell) : Nat → List Cell → Option (List Cell)
  | 0, _ => some []
  | Nat.succ m, draws =>
    match findFresh draws s with
    | none => none
    | some (d, rest) => (genAux (insert d s) m rest).map (fun l => d :: l)

/-- Source `gen_cell_random(n)`: yield `n` unique random cells.  The
`random.randint` stream is modelled by the explicit list `draws` (each
draw lies in the surface); the Python generator retries forever, so the
model returns `none` exactly when the modelled finite stream is
exhausted before `n` distinct cells appear. -/
def gen_cell_random (draws : List Cell) (n : Nat) : Option (List Cell) :=
  genAux ∅ n draws

/-- Source `initialise_random_cells(n)`: set
`int(CELL_WIDTH*CELL_HEIGHT/n)` generated cells to `True` in an empty
grid.  For integer `n ≥ 1` the Python float truncation
`int(CELL_WIDTH*CELL_HEIGHT/n)` equals natural floor division. -/
def initialise_random_cells (draws : List Cell) (n : Nat) : Option Grid :=
  (gen_cell_random draws (CELL_WIDTH * CELL_HEIGHT / n)).map
    (fun l => l.foldl gridSetTrue initialise_empty_cells)

/-- Errors that `life_load` can raise: `FileNotFoundError` from `open`
on a missing file, `ValueError` from `map(int, line.split())` unpacking
on a malformed line. -/
inductive LoadError where
  | fileNotFound : LoadError
  | valueError : LoadError
deriving DecidableEq

/-- Helper for `splitTokens`: walk the characters keeping the current
(partial) field in `acc`; whitespace closes the field. -/
def splitTokensAux : List Char → List Char → List (List Char)
  | [], acc => if acc = [] then [] else [acc]
  | c :: rest, acc =>
    if c.isWhitespace then
      if acc = [] then splitTokensAux rest []
      else acc :: splitTokensAux rest []
    else splitTokensAux rest (acc ++ [c])

/-- Model of Python `str.split()` applied to a line: split on runs of
whitespace, discarding empty fields. -/
def splitTokens (cs : List Char) : List (List Char) :=
  splitTokensAux cs []

/-- Model of Python `int(token)` on a `split()` field: an optional sign
followed by a nonempty run of decimal digits. -/
def pyInt? (cs : List Char) : Option Int :=
  match cs with
  | '-' :: ds => (digitsVal? ds).map (fun n => -(n : Int))
  | '+' :: ds => (digitsVal? ds).map (fun n => (n : Int))
  | ds => (digitsVal? ds).map (fun n => (n : Int))
where
  /-- Decimal value of a nonempty all-digit character run. -/
  digitsVal? (ds : List Char) : Option Nat :=
    if ds ≠ [] ∧ ds.all (fun c => c.isDigit) then
      some (ds.foldl (fun a c => a * 10 + (c.toNat - 48)) 0)
    else none

/-- Model of `x, y = map(int, line.split())`: succeeds only when the
line splits into exactly two fields that both parse as integers. -/
def parseCells (line : List Char) : Option (Int × Int) :=
  match (splitTokens line).mapM pyInt? with
  | some [x, y] => some (x, y)
  | _ => none

/-- A line on which `x, y = map(int, line.split())` raises: it is not a
comment and does not consist of exactly two integers. -/
def malformedLine (line : List Char) : Prop :=
  line.head? ≠ some '#' ∧ parseCells line = none

/-- Line loop of `life_load`: `if line[0] != '#':` parse and set the
translated cell; a parse failure raises `ValueError`, aborting the whole
load. -/
def loadLines (centre : Cell) : List (List Char) → Grid → Except LoadError Grid
  | [], cells => Except.ok cells
  | line :: rest, cells =>
    if line.head? = some '#' then loadLines centre rest cells
    else
      match parseCells line with
      | some (x, y) => loadLines centre rest (gridSetTrue cells (centre.1 + x, centre.2 + y))
      | none => Except.error LoadError.valueError

/-- Source `life_load(centre_cell, filename)` including the file access:
`contents` is `none` when the file is missing (Python raises
`FileNotFoundError` from `open`), otherwise the list of lines of the
file; the lines are folded over a fresh empty grid. -/
def life_load_file (centre : Cell) (contents : Option (List (List Char))) :
    Except LoadError Grid :=
  match contents with
  | none => Except.error LoadError.fileNotFound
  | some lines => loadLines centre lines initialise_empty_cells

/- ------------------------------------------------------------------ -/
/- Theorems.                                                           -/
/- ------------------------------------------------------------------ -/

theorem mem_surface {c : Cell} :
    c ∈ surface ↔ is_in_display_surface c = true := by
  cases c with
  | mk x y =>
    simp only [surface, is_in_display_surface, Finset.mem_product,
      Finset.mem_Icc, Bool.and_eq_true, decide_eq_true_eq]
    omega

set_option maxHeartbeats 1000000 in
theorem mem_cell_neighbours {a b : Cell} :
    a ∈ cell_neighbours b ↔ b ∈ cell_neighbours a := by
  cases a with
  | mk ax ay =>
    cases b with
    | mk bx by' =>
      simp only [cell_neighbours, List.mem_cons, List.not_mem_nil, or_false,
        Prod.mk.injEq]
      omega

theorem cell_neighbours_nodup (c : Cell) : (cell_neighbours c).Nodup := by
  cases c with
  | mk x y =>
    simp only [cell_neighbours, List.nodup_cons, List.mem_cons,
      List.not_mem_nil, or_false, List.nodup_nil, and_true, Prod.mk.injEq,
      not_or, true_and, not_false_eq_true]
    omega

theorem liveNeighbourCount_eq_card (L : Finset Cell) (c : Cell) :
    liveNeighbourCount L c = (L.filter (fun l => l ∈ cell_neighbours c)).card := by
  classical
  have h1 : liveNeighbourCount L c
      = ((cell_neighbours c).filter (fun n => decide (n ∈ L))).toFinset.card := by
    rw [List.toFinset_card_of_nodup]
    · rfl
    · exact (cell_neighbours_nodup c).filter _
  rw [h1]
  congr 1
  ext x
  simp [List.mem_filter, Finset.mem_filter, List.mem_toFinset]
  tauto

theorem candCount_eq (L : Finset Cell) (d : Cell) :
    candCount L d = liveNeighbourCount L d := by
  classical
  rw [liveNeighbourCount_eq_card]
  unfold candCount
  congr 1
  ext l
  simp [Finset.mem_filter, mem_cell_neighbours]

theorem mem_deadcellCandidates {L : Finset Cell} {d : Cell} :
    d ∈ deadcellCandidates L ↔ d ∉ L ∧ 0 < liveNeighbourCount L d := by
  classical
  rw [liveNeighbourCount_eq_card]
  simp only [deadcellCandidates, Finset.mem_biUnion, List.mem_toFinset,
    List.mem_filter, decide_eq_true_eq, Finset.card_pos]
  constructor
  · rintro ⟨l, hl, hn, hd⟩
    exact ⟨hd, l, Finset.mem_filter.mpr ⟨hl, mem_cell_neighbours.mp hn⟩⟩
  · rintro ⟨hd, l, hl⟩
    rcases Finset.mem_filter.mp hl with ⟨hlL, hln⟩
    exact ⟨l, hlL, mem_cell_neighbours.mpr hln, hd⟩

theorem mem_births {g : Grid} {d : Cell} :
    d ∈ births g ↔
      d ∉ g.live ∧ liveNeighbourCount g.live d = 3 ∧
        is_in_display_surface d = true := by
  classical
  simp only [births, Finset.mem_filter, mem_deadcellCandidates, candCount_eq]
  constructor
  · rintro ⟨⟨hd, _⟩, h3, hs⟩
    exact ⟨hd, h3, hs⟩
  · rintro ⟨hd, h3, hs⟩
    exact ⟨⟨hd, by omega⟩, h3, hs⟩

theorem mem_advance_live {g : Grid} {c : Cell} :
    c ∈ (live_or_die g).live ↔
      (c ∈ g.live ∧ 2 ≤ liveNeighbourCount g.live c ∧
          liveNeighbourCount g.live c ≤ 3)
      ∨ (c ∉ g.live ∧ liveNeighbourCount g.live c = 3 ∧
          is_in_display_surface c = true) := by
  classical
  simp only [live_or_die, Finset.mem_union, Finset.mem_filter, mem_births]

set_option maxHeartbeats 1000000 in
theorem mem_mooreNeighbourhood {a c : Cell} :
    a ∈ mooreNeighbourhood c ↔ a ∈ cell_neighbours c := by
  obtain ⟨ax, ay⟩ := a
  obtain ⟨cx, cy⟩ := c
  simp only [mooreNeighbourhood, cell_neighbours, Finset.mem_insert,
    Finset.mem_singleton, List.mem_cons, List.not_mem_nil, or_false,
    Prod.mk.injEq]
  omega

theorem naiveCount_eq (L : Finset Cell) (c : Cell) :
    naiveCount L c = liveNeighbourCount L c := by
  classical
  rw [liveNeighbourCount_eq_card]
  unfold naiveCount
  congr 1
  ext x
  simp only [Finset.mem_inter, Finset.mem_filter, mem_mooreNeighbourhood]
  tauto

/-- C1: on well-formed grids the sparse live-cell/dead-candidate
counting scheme of `live_or_die` computes, for every in-surface cell,
exactly the classic Conway rule on the Moore-neighbourhood live count,
and hence the same next generation as a naive full-grid scan. -/
theorem C1_sparse_advance_eq_naive_scan (g : Grid) (h : wellFormed g) :
    (∀ c ∈ surface,
      (c ∈ (live_or_die g).live ↔
        ((c ∈ g.live ∧ (naiveCount g.live c = 2 ∨ naiveCount g.live c = 3))
          ∨ (c ∉ g.live ∧ naiveCount g.live c = 3))))
    ∧ (live_or_die g).live = naive_next_live g := by
  classical
  obtain ⟨hkeys, hsub⟩ := h
  have hlive : g.live ⊆ surface := hkeys ▸ hsub
  have hmain : ∀ c ∈ surface,
      (c ∈ (live_or_die g).live ↔
        ((c ∈ g.live ∧ (naiveCount g.live c = 2 ∨ naiveCount g.live c = 3))
          ∨ (c ∉ g.live ∧ naiveCount g.live c = 3))) := by
    intro c hc
    rw [mem_advance_live, naiveCount_eq]
    have hs : is_in_display_surface c = true := mem_surface.mp hc
    constructor
    · rintro (⟨h1, h2, h3⟩ | ⟨h1, h2, _⟩)
      · exact Or.inl ⟨h1, by omega⟩
      · exact Or.inr ⟨h1, h2⟩
    · rintro (⟨h1, h2⟩ | ⟨h1, h2⟩)
      · exact Or.inl ⟨h1, by omega⟩
      · exact Or.inr ⟨h1, h2, hs⟩
  refine ⟨hmain, ?_⟩
  ext c
  by_cases hc : c ∈ surface
  · rw [hmain c hc]
    simp only [naive_next_live, Finset.mem_filter]
    by_cases hl : c ∈ g.live
    · simp [hc, hl]
    · simp [hc, hl]
  · constructor
    · intro hmem
      rcases mem_advance_live.mp hmem with ⟨h1, _⟩ | ⟨_, _, h3⟩
      · exact absurd (hlive h1) hc
      · exact absurd (mem_surface.mpr h3) hc
    · intro hmem
      exact absurd (Finset.mem_filter.mp hmem).1 hc

/-- C1 witness: the theorem applied to the empty grid. -/
theorem C1_sparse_advance_eq_naive_scan_witness :
    (live_or_die initialise_empty_cells).live = naive_next_live initialise_empty_cells :=
  (C1_sparse_advance_eq_naive_scan initialise_empty_cells
    ⟨rfl, Finset.empty_subset _⟩).2

/-- C2 counterexample: load a 2×2 block straddling the left edge; the
out-of-surface cell (-1, 0) has three live neighbours, so `live_or_die`
both counts out-of-surface live cells and keeps (-1, 0) alive in its
output, contradicting the claim that out-of-surface cells are inert. -/
theorem C2_counterexample :
    ((-1, 0) ∈
        (live_or_die (life_load (0, 0) [(-1, 0), (-1, 1), (0, 0), (0, 1)])).live)
      ∧ is_in_display_surface (-1, 0) = false := by
  decide

/-- C2 amended: `live_or_die` never brings a dead cell to life outside
the display surface (births are boundary-filtered), but out-of-surface
live cells present in the Grid are counted toward neighbour counts and
survive whenever their own count is 2 or 3.  Formally: any cell that is
alive in the output was already alive in the input or lies in the
surface. -/
theorem C2_no_birth_outside_surface (g : Grid) (c : Cell)
    (h : c ∈ (live_or_die g).live) (hnew : c ∉ g.live) :
    is_in_display_surface c = true := by
  rcases mem_advance_live.mp h with ⟨h1, _⟩ | ⟨_, _, h3⟩
  · exact absurd h1 hnew
  · exact h3

/-- C2 witness: the amended theorem applied to a concrete newly-born
cell of the blinker step. -/
theorem C2_no_birth_outside_surface_witness :
    is_in_display_surface ((5 : Int), (4 : Int)) = true :=
  C2_no_birth_outside_surface blinkerGrid (5, 4) (by decide) (by decide)

/-- C6: the horizontal blinker line becomes the vertical line after one
`live_or_die`, and returns to the horizontal line after a second one. -/
theorem C6_blinker_period_two :
    (live_or_die blinkerGrid).live
        = insert ((5 : Int), (4 : Int))
            (insert ((5 : Int), (5 : Int)) {((5 : Int), (6 : Int))})
      ∧ (live_or_die (live_or_die blinkerGrid)).live
        = insert ((4 : Int), (5 : Int))
            (insert ((5 : Int), (5 : Int)) {((6 : Int), (5 : Int))}) := by
  decide

/-- C4: if every live cell of the grid lies in the display surface,
then no cell outside the surface is alive after `live_or_die` (in
particular an out-of-surface dead candidate with three live neighbours
is not born), and every cell alive in the output lies in the surface. -/
theorem C4_boundary_suppression (g : Grid)
    (h : ∀ c ∈ g.live, is_in_display_surface c = true) :
    (∀ c : Cell, is_in_display_surface c = false → c ∉ (live_or_die g).live)
    ∧ (∀ c ∈ (live_or_die g).live, is_in_display_surface c = true) := by
  have hin : ∀ c ∈ (live_or_die g).live, is_in_display_surface c = true := by
    intro c hc
    rcases mem_advance_live.mp hc with ⟨h1, _⟩ | ⟨_, _, h3⟩
    · exact h c h1
    · exact h3
  refine ⟨?_, hin⟩
  intro c hc hmem
  rw [hin c hmem] at hc
  cases hc

/-- C4 witness: the theorem applied to the blinker grid. -/
theorem C4_boundary_suppression_witness :
    ((-1, 0) ∉ (live_or_die blinkerGrid).live) := by
  have h := C4_boundary_suppression blinkerGrid (by decide)
  exact h.1 (-1, 0) (by decide)

theorem advance_keys_of_wellFormed (g : Grid) (h : wellFormed g) :
    (live_or_die g).keys = g.keys := by
  classical
  obtain ⟨hkeys, hsub⟩ := h
  have hbirths : births g ⊆ g.keys := by
    intro c hc
    rw [hkeys, mem_surface]
    exact (mem_births.mp hc).2.2
  have hkilled : killed g ⊆ g.keys := fun c hc =>
    hsub (Finset.mem_filter.mp hc).1
  show (g.keys ∪ killed g) ∪ births g = g.keys
  rw [Finset.union_eq_left.mpr hkilled, Finset.union_eq_left.mpr hbirths]

theorem advance_wellFormed (g : Grid) (h : wellFormed g) :
    wellFormed (live_or_die g) := by
  classical
  have hk := advance_keys_of_wellFormed g h
  obtain ⟨hkeys, hsub⟩ := h
  have hbirths : births g ⊆ g.keys := by
    intro c hc
    rw [hkeys, mem_surface]
    exact (mem_births.mp hc).2.2
  refine ⟨hk.trans hkeys, ?_⟩
  rw [hk]
  show (g.live.filter _) ∪ births g ⊆ g.keys
  exact Finset.union_subset (fun c hc => hsub (Finset.mem_filter.mp hc).1) hbirths

/-- C9: `live_or_die` is total on well-formed grids and reaches no
error condition: every dictionary write lands on an existing key, so the
key set is unchanged (and equal to the surface), and the output is again
a well-formed grid over the same surface. -/
theorem C9_advance_total_on_well_formed (g : Grid) (h : wellFormed g) :
    (live_or_die g).keys = g.keys ∧ wellFormed (live_or_die g) :=
  ⟨advance_keys_of_wellFormed g h, advance_wellFormed g h⟩

/-- C9 witness: the theorem applied to the empty grid. -/
theorem C9_advance_total_on_well_formed_witness :
    (live_or_die initialise_empty_cells).keys = initialise_empty_cells.keys
    ∧ wellFormed (live_or_die initialise_empty_cells) :=
  C9_advance_total_on_well_formed initialise_empty_cells
    ⟨rfl, Finset.empty_subset _⟩

/-- C10: `live_or_die` leaves the grid unchanged away from live cells
and their Moore neighbourhoods: a cell that is dead in the input and is
not a neighbour of any live input cell is still dead in the output. -/
theorem C10_frame_property (g : Grid) (c : Cell)
    (hdead : c ∉ g.live)
    (hfar : ∀ l ∈ g.live, c ∉ cell_neighbours l) :
    c ∉ (live_or_die g).live := by
  classical
  intro hmem
  rcases mem_advance_live.mp hmem with ⟨h1, _⟩ | ⟨_, h2, _⟩
  · exact hdead h1
  · have hzero : liveNeighbourCount g.live c = 0 := by
      rw [liveNeighbourCount_eq_card, Finset.card_eq_zero]
      apply Finset.filter_eq_empty_iff.mpr
      intro l hl hln
      exact hfar l hl (mem_cell_neighbours.mp hln)
    omega

/-- C10 witness: the theorem applied to the blinker grid at a far-away
cell. -/
theorem C10_frame_property_witness :
    ((50, 50) ∉ (live_or_die blinkerGrid).live) :=
  C10_frame_property blinkerGrid (50, 50) (by decide) (by decide)

theorem foldl_gridSetTrue_keys (l : List Cell) (g : Grid) :
    (l.foldl gridSetTrue g).keys = g.keys ∪ l.toFinset := by
  induction l generalizing g with
  | nil => simp
  | cons a t ih =>
    rw [List.foldl_cons, ih]
    show (insert a g.keys) ∪ t.toFinset = g.keys ∪ (a :: t).toFinset
    rw [List.toFinset_cons, Finset.insert_union, Finset.union_insert]

theorem foldl_gridSetTrue_live (l : List Cell) (g : Grid) :
    (l.foldl gridSetTrue g).live = g.live ∪ l.toFinset := by
  induction l generalizing g with
  | nil => simp
  | cons a t ih =>
    rw [List.foldl_cons, ih]
    show (insert a g.live) ∪ t.toFinset = g.live ∪ (a :: t).toFinset
    rw [List.toFinset_cons, Finset.insert_union, Finset.union_insert]

theorem life_load_eq (centre : Cell) (entries : List Cell) :
    life_load centre entries
      = (entries.map (fun e => (centre.1 + e.1, centre.2 + e.2))).foldl
          gridSetTrue initialise_empty_cells := by
  rw [List.foldl_map]
  rfl

theorem life_load_keys (centre : Cell) (entries : List Cell) :
    (life_load centre entries).keys
      = surface ∪ (entries.map (fun e => (centre.1 + e.1, centre.2 + e.2))).toFinset := by
  rw [life_load_eq, foldl_gridSetTrue_keys]
  rfl

theorem surface_card : surface.card = CELL_WIDTH * CELL_HEIGHT := by
  rw [surface, Finset.card_product, Int.card_Icc, Int.card_Icc]
  decide

/-- C3 counterexample: loading the single pattern entry (-1, -1) at
anchor (0, 0) records the out-of-surface key (-1, -1), so the resulting
mapping has WIDTH×HEIGHT + 1 entries, not WIDTH×HEIGHT. -/
theorem C3_counterexample :
    (life_load (0, 0) [(-1, -1)]).keys.card ≠ CELL_WIDTH * CELL_HEIGHT := by
  have hpair : (((0 : Int) + (-1 : Int), (0 : Int) + (-1 : Int)) : Cell)
      = ((-1 : Int), (-1 : Int)) := by norm_num
  have hk : (life_load (0, 0) [(-1, -1)]).keys
      = insert ((-1 : Int), (-1 : Int)) surface := by
    rw [life_load_keys]
    simp only [List.map_cons, List.map_nil, List.toFinset_cons,
      List.toFinset_nil]
    rw [hpair, Finset.union_insert, Finset.union_empty]
  have hnot : ((-1 : Int), (-1 : Int)) ∉ surface := by
    rw [mem_surface]
    decide
  rw [hk, Finset.card_insert_of_not_mem hnot, surface_card]
  omega

theorem findFresh_spec (draws : List Cell) :
    ∀ (s : Finset Cell) (d : Cell) (rest : List Cell),
      findFresh draws s = some (d, rest) →
      d ∉ s ∧ d ∈ draws ∧ ∀ x ∈ rest, x ∈ draws := by
  induction draws with
  | nil =>
    intro s d rest h
    cases h
  | cons a t ih =>
    intro s d rest h
    simp only [findFresh] at h
    by_cases ha : a ∈ s
    · rw [if_pos ha] at h
      obtain ⟨h1, h2, h3⟩ := ih s d rest h
      exact ⟨h1, List.mem_cons_of_mem _ h2,
        fun x hx => List.mem_cons_of_mem _ (h3 x hx)⟩
    · rw [if_neg ha] at h
      injection h with h2
      have hd : a = d := congrArg Prod.fst h2
      have hr : t = rest := congrArg Prod.snd h2
      subst hd
      subst hr
      exact ⟨ha, List.mem_cons_self _ _, fun x hx => List.mem_cons_of_mem _ hx⟩

theorem genAux_spec (n : Nat) :
    ∀ (draws : List Cell) (s : Finset Cell) (l : List Cell),
      genAux s n draws = some l →
      l.length = n ∧ l.Nodup ∧ (∀ c ∈ l, c ∉ s) ∧ (∀ c ∈ l, c ∈ draws) := by
  induction n with
  | zero =>
    intro draws s l h
    simp only [genAux] at h
    injection h with h'
    subst h'
    refine ⟨rfl, List.nodup_nil, ?_, ?_⟩ <;> intro c hc <;> cases hc
  | succ m ih =>
    intro draws s l h
    simp only [genAux] at h
    cases hf : findFresh draws s with
    | none => rw [hf] at h; cases h
    | some pr =>
      obtain ⟨d, rest⟩ := pr
      rw [hf] at h
      dsimp only at h
      cases hg : genAux (insert d s) m rest with
      | none => rw [hg] at h; cases h
      | some t =>
        rw [hg] at h
        simp only [Option.map_some'] at h
        injection h with h'
        subst h'
        obtain ⟨hd1, hd2, hd3⟩ := findFresh_spec draws s d rest hf
        obtain ⟨ht1, ht2, ht3, ht4⟩ := ih rest (insert d s) t hg
        refine ⟨by simp [ht1], ?_, ?_, ?_⟩
        · refine List.nodup_cons.mpr ⟨?_, ht2⟩
          intro hmem
          exact (ht3 d hmem) (Finset.mem_insert_self d s)
        · intro c hc
          rcases List.mem_cons.mp hc with rfl | hc'
          · exact hd1
          · intro hcs
            exact (ht3 c hc') (Finset.mem_insert_of_mem hcs)
        · intro c hc
          rcases List.mem_cons.mp hc with rfl | hc'
          · exact hd2
          · exact hd3 c (ht4 c hc')

/-- C5: whenever the rejection sampler terminates (the modelled random
stream provides enough cells), `initialise_random_cells` yields a grid
with exactly `⌊CELL_WIDTH·CELL_HEIGHT / n⌋` live cells, all distinct and
inside the surface, and an all-dead grid when that target is 0. -/
theorem C5_create_random (draws : List Cell) (n : Nat) (g : Grid)
    (_hn : 1 ≤ n)
    (hd : ∀ d ∈ draws, is_in_display_surface d = true)
    (hg : initialise_random_cells draws n = some g) :
    g.live.card = CELL_WIDTH * CELL_HEIGHT / n
    ∧ (∀ c ∈ g.live, is_in_display_surface c = true)
    ∧ (CELL_WIDTH * CELL_HEIGHT / n = 0 → g.live = ∅) := by
  classical
  unfold initialise_random_cells at hg
  cases hl : gen_cell_random draws (CELL_WIDTH * CELL_HEIGHT / n) with
  | none => rw [hl] at hg; cases hg
  | some l =>
    rw [hl] at hg
    simp only [Option.map_some'] at hg
    injection hg with hg'
    subst hg'
    obtain ⟨h1, h2, _, h4⟩ := genAux_spec _ draws ∅ l hl
    have hlive : (l.foldl gridSetTrue initialise_empty_cells).live = l.toFinset := by
      rw [foldl_gridSetTrue_live]
      show ∅ ∪ _ = _
      rw [Finset.empty_union]
    refine ⟨?_, ?_, ?_⟩
    · rw [hlive, List.toFinset_card_of_nodup h2, h1]
    · intro c hc
      rw [hlive] at hc
      exact hd c (h4 c (List.mem_toFinset.mp hc))
    · intro h0
      have hnil : l = [] := List.length_eq_zero.mp (by rw [h1, h0])
      rw [hlive, hnil]
      rfl

/-- C5 witness: the theorem applied with a one-cell stream and fraction
5712, whose target count is 1. -/
theorem C5_create_random_witness :
    (gridSetTrue initialise_empty_cells ((0 : Int), (0 : Int))).live.card
      = CELL_WIDTH * CELL_HEIGHT / 5712 :=
  (C5_create_random [((0 : Int), (0 : Int))] 5712
    (gridSetTrue initialise_empty_cells (0, 0))
    (by decide) (by decide) rfl).1

theorem initialise_random_cells_keys (draws : List Cell) (n : Nat) (g : Grid)
    (hd : ∀ d ∈ draws, is_in_display_surface d = true)
    (hg : initialise_random_cells draws n = some g) :
    g.keys = surface := by
  classical
  unfold initialise_random_cells at hg
  cases hl : gen_cell_random draws (CELL_WIDTH * CELL_HEIGHT / n) with
  | none => rw [hl] at hg; cases hg
  | some l =>
    rw [hl] at hg
    simp only [Option.map_some'] at hg
    injection hg with hg'
    subst hg'
    obtain ⟨_, _, _, h4⟩ := genAux_spec _ draws ∅ l hl
    rw [foldl_gridSetTrue_keys]
    show surface ∪ _ = surface
    apply Finset.union_eq_left.mpr
    intro x hx
    exact mem_surface.mpr (hd x (h4 x (List.mem_toFinset.mp hx)))

/-- C3 amended: `create_empty`, `create_random` (when it terminates on
in-surface draws), `toggle` (whenever it succeeds) and `advance` (on
well-formed grids) all produce grids with exactly WIDTH×HEIGHT entries;
`load_pattern` does so when every translated offset lands inside the
surface, but records additional entries for out-of-surface offsets. -/
theorem C3_cardinality_amended :
    initialise_empty_cells.keys.card = CELL_WIDTH * CELL_HEIGHT
    ∧ (∀ (draws : List Cell) (n : Nat) (g : Grid),
        (∀ d ∈ draws, is_in_display_surface d = true) →
        initialise_random_cells draws n = some g →
        g.keys.card = CELL_WIDTH * CELL_HEIGHT)
    ∧ (∀ (centre : Cell) (entries : List Cell),
        (∀ e ∈ entries,
          is_in_display_surface (centre.1 + e.1, centre.2 + e.2) = true) →
        (life_load centre entries).keys.card = CELL_WIDTH * CELL_HEIGHT)
    ∧ (∀ (g : Grid) (c : Cell) (g' : Grid),
        g.keys = surface → toggle g c = some g' →
        g'.keys.card = CELL_WIDTH * CELL_HEIGHT)
    ∧ (∀ g : Grid, wellFormed g →
        (live_or_die g).keys.card = CELL_WIDTH * CELL_HEIGHT) := by
  classical
  refine ⟨surface_card, ?_, ?_, ?_, ?_⟩
  · intro draws n g hd hg
    rw [initialise_random_cells_keys draws n g hd hg, surface_card]
  · intro centre entries h
    rw [life_load_keys]
    have hsub : (entries.map (fun e => (centre.1 + e.1, centre.2 + e.2))).toFinset
        ⊆ surface := by
      intro x hx
      rw [List.mem_toFinset, List.mem_map] at hx
      obtain ⟨e, he, rfl⟩ := hx
      exact mem_surface.mpr (h e he)
    rw [Finset.union_eq_left.mpr hsub, surface_card]
  · intro g c g' hk ht
    unfold toggle at ht
    by_cases hc : c ∈ g.keys
    · rw [if_pos hc] at ht
      injection ht with ht'
      have hkeq : g'.keys = g.keys := by rw [← ht']
      rw [hkeq, hk, surface_card]
    · rw [if_neg hc] at ht
      cases ht
  · intro g h
    rw [advance_keys_of_wellFormed g h, h.1, surface_card]

/-- C3 amended witness: the conjuncts applied at concrete inputs. -/
theorem C3_cardinality_amended_witness :
    initialise_empty_cells.keys.card = CELL_WIDTH * CELL_HEIGHT
    ∧ (gridSetTrue initialise_empty_cells ((0 : Int), (0 : Int))).keys.card
        = CELL_WIDTH * CELL_HEIGHT
    ∧ (life_load (0, 0) []).keys.card = CELL_WIDTH * CELL_HEIGHT
    ∧ (live_or_die initialise_empty_cells).keys.card = CELL_WIDTH * CELL_HEIGHT :=
  ⟨C3_cardinality_amended.1,
   C3_cardinality_amended.2.1 [((0 : Int), (0 : Int))] 5712
     (gridSetTrue initialise_empty_cells (0, 0)) (by decide) rfl,
   C3_cardinality_amended.2.2.1 (0, 0) [] (by intro e he; cases he),
   C3_cardinality_amended.2.2.2.2 initialise_empty_cells
     ⟨rfl, Finset.empty_subset _⟩⟩

/-- C8: on a grid satisfying the total-mapping invariant, toggling an
out-of-surface cell fails on the value lookup (`KeyError`) before any
entry is created, so the grid is unchanged and no phantom key appears;
toggling an in-surface cell succeeds, flips exactly that cell's alive
flag, and leaves every other entry and the key set unchanged. -/
theorem C8_toggle_bounds (g : Grid) (hk : g.keys = surface) :
    (∀ c : Cell, is_in_display_surface c = false → toggle g c = none)
    ∧ (∀ c : Cell, is_in_display_surface c = true →
        (toggle g c).isSome = true
        ∧ (∀ g', toggle g c = some g' →
            g'.keys = g.keys
            ∧ (c ∈ g'.live ↔ c ∉ g.live)
            ∧ (∀ d : Cell, d ≠ c → (d ∈ g'.live ↔ d ∈ g.live)))) := by
  classical
  have hmem : ∀ c : Cell, c ∈ g.keys ↔ is_in_display_surface c = true := by
    intro c
    rw [hk]
    exact mem_surface
  constructor
  · intro c hc
    unfold toggle
    rw [if_neg]
    rw [hmem, hc]
    exact Bool.false_ne_true
  · intro c hc
    have hck : c ∈ g.keys := (hmem c).mpr hc
    constructor
    · unfold toggle
      rw [if_pos hck]
      rfl
    · intro g' hg'
      unfold toggle at hg'
      rw [if_pos hck] at hg'
      injection hg' with hg''
      subst hg''
      refine ⟨rfl, ?_, ?_⟩
      · by_cases hcl : c ∈ g.live
        · simp [hcl]
        · simp [hcl]
      · intro d hd
        by_cases hcl : c ∈ g.live
        · simp [hcl, Finset.mem_erase, hd]
        · simp [hcl, Finset.mem_insert, hd]

/-- C8 witness: the theorem applied to the empty grid at the
out-of-surface cell (-1, 0) and the in-surface cell (0, 0). -/
theorem C8_toggle_bounds_witness :
    toggle initialise_empty_cells (-1, 0) = none
    ∧ (toggle initialise_empty_cells ((0 : Int), (0 : Int))).isSome = true :=
  ⟨(C8_toggle_bounds initialise_empty_cells rfl).1 (-1, 0) (by decide),
   ((C8_toggle_bounds initialise_empty_cells rfl).2 (0, 0) (by decide)).1⟩

theorem loadLines_error (centre : Cell) (lines : List (List Char)) :
    ∀ cells : Grid, (∃ l ∈ lines, malformedLine l) →
      loadLines centre lines cells = Except.error LoadError.valueError := by
  induction lines with
  | nil =>
    rintro cells ⟨l, hl, _⟩
    cases hl
  | cons a t ih =>
    rintro cells ⟨l, hl, hm⟩
    by_cases hc : a.head? = some '#'
    · have hlt : l ∈ t := by
        rcases List.mem_cons.mp hl with rfl | h
        · exact (hm.1 hc).elim
        · exact h
      simp only [loadLines]
      rw [if_pos hc]
      exact ih cells ⟨l, hlt, hm⟩
    · cases hp : parseCells a with
      | none =>
        simp only [loadLines]
        rw [if_neg hc, hp]
      | some xy =>
        obtain ⟨x, y⟩ := xy
        have hlt : l ∈ t := by
          rcases List.mem_cons.mp hl with rfl | h
          · rw [hm.2] at hp
            cases hp
          · exact h
        simp only [loadLines]
        rw [if_neg hc, hp]
        exact ih _ ⟨l, hlt, hm⟩

/-- C7: a missing pattern file surfaces as the distinct not-found error,
and any malformed non-comment line (not exactly two integers) makes the
whole load fail with `ValueError`, so no partially-applied grid is ever
returned and the caller's previous grid value is untouched. -/
theorem C7_load_failure :
    (∀ centre : Cell,
      life_load_file centre none = Except.error LoadError.fileNotFound)
    ∧ LoadError.fileNotFound ≠ LoadError.valueError
    ∧ (∀ (centre : Cell) (lines : List (List Char)),
        (∃ l ∈ lines, malformedLine l) →
        life_load_file centre (some lines) = Except.error LoadError.valueError) :=
  ⟨fun _ => rfl, by decide,
   fun centre lines h => loadLines_error centre lines initialise_empty_cells h⟩

/-- C7 witness: the theorem applied to a missing file and to a one-line
file whose line is not two integers. -/
theorem C7_load_failure_witness :
    life_load_file (0, 0) none = Except.error LoadError.fileNotFound
    ∧ life_load_file (0, 0) (some [['x']]) = Except.error LoadError.valueError :=
  ⟨C7_load_failure.1 (0, 0),
   C7_load_failure.2.2 (0, 0) [['x']] ⟨['x'], by decide, by decide, by rfl⟩⟩

end Gol
